import Mathlib

/-!
Shallow embedding of the MedBox backend (`medbox_db.py`).

The server keeps four in-memory maps, all keyed by device id and persisted
to JSON files after every mutation:
  * `devices_meds`               : deviceId → latest medication snapshot
  * `devices_commands_pending`   : deviceId → list of queued commands
  * `devices_commands_history`   : deviceId → list of delivered commands
  * `devices_meta`               : deviceId → device metadata

All handlers run under a single global lock, so every HTTP request is one
atomic state transition; we model each handler as a pure function from
(request, state) to (response, state).  Timestamps (`now_iso()`) are
modelled by an explicit `Nat` clock passed to each operation.  Python dicts
become `String → Option _` maps (so an absent key is distinguishable from a
key bound to an empty list); JSON bodies with possibly-missing keys become
structures of `Option` fields, and Python string falsiness (`not device_id`)
is the test `deviceId.getD "" = ""`.
-/

/-- A medication entry as uploaded by a device (opaque to the server). -/
structure MedEntry where
  id : Int
  name : String
  qty : Int
  hour : Int
  minute : Int
  led : Int
  enabled : Bool
deriving DecidableEq, Repr

/-- The latest snapshot stored for a device (`devices_meds` values). -/
structure Snapshot where
  timestamp : Nat
  count : Int
  meds : List MedEntry
deriving DecidableEq, Repr

/-- A queued command: the dicts built by the add/edit/delete endpoints. -/
inductive Cmd where
  | add (name : String) (qty hour minute led : Int) (enabled : Bool)
  | edit (id : Int) (name : Option String) (qty hour minute led : Option Int)
      (enabled : Option Bool)
  | del (id : Int)
deriving DecidableEq, Repr

/-- A history record: a copy of a command stamped `status`/`sent_at` by the
poll handler. -/
structure HistEntry where
  cmd : Cmd
  status : String
  sent_at : Nat
deriving DecidableEq, Repr

/-- Device metadata (`devices_meta` values). -/
structure DeviceMeta where
  deviceId : String
  friendly_name : String
  created_at : Nat
  last_seen_upload : Option Nat
  last_seen_changes : Option Nat
deriving DecidableEq, Repr

/-- The whole server state: the four dicts guarded by the global lock. -/
structure ServerState where
  devices_meds : String → Option Snapshot
  devices_commands_pending : String → Option (List Cmd)
  devices_commands_history : String → Option (List HistEntry)
  devices_meta : String → Option DeviceMeta

/-- The empty state (all four JSON files absent at startup). -/
def initState : ServerState :=
  { devices_meds := fun _ => none
    devices_commands_pending := fun _ => none
    devices_commands_history := fun _ => none
    devices_meta := fun _ => none }

/-- `ensure_device_meta`: create the meta entry if it does not exist. -/
def ensure_device_meta (now : Nat) (device_id : String) (s : ServerState) :
    ServerState :=
  match s.devices_meta device_id with
  | some _ => s
  | none =>
      { s with devices_meta := fun k =>
          if k = device_id then
            some { deviceId := device_id
                   friendly_name := device_id
                   created_at := now
                   last_seen_upload := none
                   last_seen_changes := none }
          else s.devices_meta k }

/-- `update_last_seen_upload`: ensure meta, then stamp `last_seen_upload`. -/
def update_last_seen_upload (now : Nat) (device_id : String)
    (s : ServerState) : ServerState :=
  let s1 := ensure_device_meta now device_id s
  match s1.devices_meta device_id with
  | some m =>
      { s1 with devices_meta := fun k =>
          if k = device_id then some { m with last_seen_upload := some now }
          else s1.devices_meta k }
  | none => s1

/-- `update_last_seen_changes`: ensure meta, then stamp `last_seen_changes`. -/
def update_last_seen_changes (now : Nat) (device_id : String)
    (s : ServerState) : ServerState :=
  let s1 := ensure_device_meta now device_id s
  match s1.devices_meta device_id with
  | some m =>
      { s1 with devices_meta := fun k =>
          if k = device_id then some { m with last_seen_changes := some now }
          else s1.devices_meta k }
  | none => s1

/-- `enqueue_command`: append to the per-device pending queue (creating the
list if absent). -/
def enqueue_command (now : Nat) (device_id : String) (cmd : Cmd)
    (s : ServerState) : ServerState :=
  let s1 := ensure_device_meta now device_id s
  let cur := (s1.devices_commands_pending device_id).getD []
  { s1 with devices_commands_pending := fun k =>
      if k = device_id then some (cur ++ [cmd])
      else s1.devices_commands_pending k }

/-- JSON body of `POST /medbox/upload`; `none` fields are absent keys. -/
structure UploadReq where
  deviceId : Option String
  count : Option Int
  meds : Option (List MedEntry)
deriving DecidableEq, Repr

/-- Response of `POST /medbox/upload`. -/
inductive UploadResp where
  | badRequest (error : String)
  | ok (deviceId : String) (receivedCount : Int) (storedAt : Nat)
deriving DecidableEq, Repr

/-- `upload_medbox` (`POST /medbox/upload`).  `data = none` is a missing or
falsy JSON body.  `not device_id` is true for an absent key and for the
empty string; `meds` and `count` are compared against `None` only. -/
def upload_medbox (now : Nat) (data : Option UploadReq) (s : ServerState) :
    UploadResp × ServerState :=
  match data with
  | none => (.badRequest "invalid json", s)
  | some r =>
      if r.deviceId.getD "" = "" ∨ r.meds = none ∨ r.count = none then
        (.badRequest "missing fields", s)
      else
        let device_id := r.deviceId.getD ""
        let count := r.count.getD 0
        let meds := r.meds.getD []
        let snapshot : Snapshot :=
          { timestamp := now, count := count, meds := meds }
        let s1 := ensure_device_meta now device_id s
        let s2 := update_last_seen_upload now device_id s1
        let s3 := { s2 with devices_meds := fun k =>
            if k = device_id then some snapshot else s2.devices_meds k }
        (.ok device_id count now, s3)

/-- Response of `GET /medbox/changes`. -/
inductive ChangesResp where
  | badRequest (error : String)
  | ok (commands : List Cmd)
deriving DecidableEq, Repr

/-- `get_changes` (`GET /medbox/changes?deviceId=...`): drain the pending
queue into history, stamping each copied entry "sent" with one shared
timestamp, and return the drained list. -/
def get_changes (now : Nat) (deviceId : Option String) (s : ServerState) :
    ChangesResp × ServerState :=
  if deviceId.getD "" = "" then (.badRequest "deviceId required", s)
  else
    let device_id := deviceId.getD ""
    let s1 := ensure_device_meta now device_id s
    let s2 := update_last_seen_changes now device_id s1
    let cmds := (s2.devices_commands_pending device_id).getD []
    let hist := (s2.devices_commands_history device_id).getD []
    let entries := cmds.map fun c =>
      ({ cmd := c, status := "sent", sent_at := now } : HistEntry)
    let s3 := { s2 with
        devices_commands_history := fun k =>
          if k = device_id then some (hist ++ entries)
          else s2.devices_commands_history k
        devices_commands_pending := fun k =>
          if k = device_id then some []
          else s2.devices_commands_pending k }
    (.ok cmds, s3)

/-- JSON body of `POST /medbox/<id>/command/add`. -/
structure AddReq where
  name : Option String
  qty : Option Int
  hour : Option Int
  minute : Option Int
  led : Option Int
  enabled : Option Bool
deriving DecidableEq, Repr

/-- JSON body of `POST /medbox/<id>/command/edit`. -/
structure EditReq where
  id : Option Int
  name : Option String
  qty : Option Int
  hour : Option Int
  minute : Option Int
  led : Option Int
  enabled : Option Bool
deriving DecidableEq, Repr

/-- JSON body of `POST /medbox/<id>/command/delete`. -/
structure DelReq where
  id : Option Int
deriving DecidableEq, Repr

/-- Response of the three command-enqueue endpoints. -/
inductive CmdResp where
  | badRequest (error : String)
  | queued (deviceId : String) (command : Cmd)
deriving DecidableEq, Repr

/-- `add_command` (`POST /medbox/<id>/command/add`): requires name, qty,
hour, minute, led to be present; `enabled` defaults to true.  No range
check is performed on any field. -/
def add_command (now : Nat) (device_id : String) (data : Option AddReq)
    (s : ServerState) : CmdResp × ServerState :=
  match data with
  | none => (.badRequest "invalid json", s)
  | some r =>
      match r.name, r.qty, r.hour, r.minute, r.led with
      | some name, some qty, some hour, some minute, some led =>
          let cmd := Cmd.add name qty hour minute led (r.enabled.getD true)
          (.queued device_id cmd, enqueue_command now device_id cmd s)
      | _, _, _, _, _ => (.badRequest "missing fields", s)

/-- `edit_command` (`POST /medbox/<id>/command/edit`): requires `id`; the
other fields are copied into the command when present. -/
def edit_command (now : Nat) (device_id : String) (data : Option EditReq)
    (s : ServerState) : CmdResp × ServerState :=
  match data with
  | none => (.badRequest "invalid json", s)
  | some r =>
      match r.id with
      | none => (.badRequest "id required", s)
      | some i =>
          let cmd := Cmd.edit i r.name r.qty r.hour r.minute r.led r.enabled
          (.queued device_id cmd, enqueue_command now device_id cmd s)

/-- `delete_command` (`POST /medbox/<id>/command/delete`): requires `id`. -/
def delete_command (now : Nat) (device_id : String) (data : Option DelReq)
    (s : ServerState) : CmdResp × ServerState :=
  match data with
  | none => (.badRequest "invalid json", s)
  | some r =>
      match r.id with
      | none => (.badRequest "id required", s)
      | some i =>
          let cmd := Cmd.del i
          (.queued device_id cmd, enqueue_command now device_id cmd s)

/-- Response of `GET /medbox/<id>/snapshot`: 404 when no snapshot exists. -/
inductive SnapResp where
  | notFound
  | ok (snap : Snapshot)
deriving DecidableEq, Repr

/-- `get_snapshot` (`GET /medbox/<id>/snapshot`), read-only. -/
def get_snapshot (device_id : String) (s : ServerState) : SnapResp :=
  match s.devices_meds device_id with
  | none => .notFound
  | some snap => .ok snap

/-- `get_pending` (`GET /medbox/<id>/pending`), read-only. -/
def get_pending (device_id : String) (s : ServerState) : List Cmd :=
  (s.devices_commands_pending device_id).getD []

/-- `new_device` POST (`/devices/new`): empty device id (after strip) is
rejected; otherwise ensure meta and overwrite the friendly name. -/
def new_device (now : Nat) (device_id friendly_name : String)
    (s : ServerState) : ServerState :=
  if device_id = "" then s
  else
    let fname := if friendly_name = "" then device_id else friendly_name
    let s1 := ensure_device_meta now device_id s
    match s1.devices_meta device_id with
    | some m =>
        { s1 with devices_meta := fun k =>
            if k = device_id then some { m with friendly_name := fname }
            else s1.devices_meta k }
    | none => s1

/-- `device_detail` (`GET /device/<id>`): read-only except that it calls
`ensure_device_meta`. -/
def device_detail (now : Nat) (device_id : String) (s : ServerState) :
    ServerState :=
  ensure_device_meta now device_id s

/-- `delete_device` (`POST /device/<id>/delete`): pop the device from all
four maps in one critical section. -/
def delete_device (device_id : String) (s : ServerState) : ServerState :=
  { devices_meds := fun k =>
      if k = device_id then none else s.devices_meds k
    devices_commands_pending := fun k =>
      if k = device_id then none else s.devices_commands_pending k
    devices_commands_history := fun k =>
      if k = device_id then none else s.devices_commands_history k
    devices_meta := fun k =>
      if k = device_id then none else s.devices_meta k }

/-- `delete_pending` (`POST /device/<id>/pending/<idx>/delete`): delete the
pending entry at `idx` when in range, otherwise do nothing. -/
def delete_pending (device_id : String) (idx : Nat) (s : ServerState) :
    ServerState :=
  let lst := (s.devices_commands_pending device_id).getD []
  if idx < lst.length then
    { s with devices_commands_pending := fun k =>
        if k = device_id then some (lst.eraseIdx idx)
        else s.devices_commands_pending k }
  else s

/-- `delete_history` (`POST /device/<id>/history/<idx>/delete`): delete the
history entry at `idx` when in range, otherwise do nothing. -/
def delete_history (device_id : String) (idx : Nat) (s : ServerState) :
    ServerState :=
  let lst := (s.devices_commands_history device_id).getD []
  if idx < lst.length then
    { s with devices_commands_history := fun k =>
        if k = device_id then some (lst.eraseIdx idx)
        else s.devices_commands_history k }
  else s

/-- One server operation: every route of the application, with its request
payload and the clock value at which it runs.  The global lock serializes
requests, so an execution is a sequence of these. -/
inductive Op where
  | upload (now : Nat) (data : Option UploadReq)
  | changes (now : Nat) (deviceId : Option String)
  | addCmd (now : Nat) (device_id : String) (data : Option AddReq)
  | editCmd (now : Nat) (device_id : String) (data : Option EditReq)
  | delCmd (now : Nat) (device_id : String) (data : Option DelReq)
  | snapshotGet (device_id : String)
  | pendingGet (device_id : String)
  | indexGet
  | newDevice (now : Nat) (device_id friendly_name : String)
  | deviceDetail (now : Nat) (device_id : String)
  | deleteDevice (device_id : String)
  | deletePending (device_id : String) (idx : Nat)
  | deleteHistory (device_id : String) (idx : Nat)

/-- State transition of one operation (responses projected away; the
read-only routes are the identity). -/
def step : Op → ServerState → ServerState
  | .upload now data, s => (upload_medbox now data s).2
  | .changes now deviceId, s => (get_changes now deviceId s).2
  | .addCmd now d data, s => (add_command now d data s).2
  | .editCmd now d data, s => (edit_command now d data s).2
  | .delCmd now d data, s => (delete_command now d data s).2
  | .snapshotGet _, s => s
  | .pendingGet _, s => s
  | .indexGet, s => s
  | .newDevice now d f, s => new_device now d f s
  | .deviceDetail now d, s => device_detail now d s
  | .deleteDevice d, s => delete_device d s
  | .deletePending d idx, s => delete_pending d idx s
  | .deleteHistory d idx, s => delete_history d idx s

/-- The pending list of a device, as every handler reads it
(`.get(device_id, [])`). -/
def pend (s : ServerState) (d : String) : List Cmd :=
  (s.devices_commands_pending d).getD []

/-- The history list of a device. -/
def hist (s : ServerState) (d : String) : List HistEntry :=
  (s.devices_commands_history d).getD []

/-- The commands recorded in a device's history (stamps projected away). -/
def histCmds (s : ServerState) (d : String) : List Cmd :=
  (hist s d).map HistEntry.cmd

/-- The history record the poll handler writes for a drained command. -/
def stamp (now : Nat) (c : Cmd) : HistEntry :=
  { cmd := c, status := "sent", sent_at := now }

/-- A sequence of enqueues of commands on one device, each at its own
clock value. -/
def enqueueAll (d : String) (tcs : List (Nat × Cmd)) (s : ServerState) :
    ServerState :=
  tcs.foldl (fun st tc => enqueue_command tc.1 d tc.2 st) s

/-! ### Frame lemmas for the metadata helpers -/

theorem ensure_meds (now : Nat) (d : String) (s : ServerState) :
    (ensure_device_meta now d s).devices_meds = s.devices_meds := by
  unfold ensure_device_meta; split <;> rfl

theorem ensure_pending (now : Nat) (d : String) (s : ServerState) :
    (ensure_device_meta now d s).devices_commands_pending =
      s.devices_commands_pending := by
  unfold ensure_device_meta; split <;> rfl

theorem ensure_history (now : Nat) (d : String) (s : ServerState) :
    (ensure_device_meta now d s).devices_commands_history =
      s.devices_commands_history := by
  unfold ensure_device_meta; split <;> rfl

theorem ensure_meta_other (now : Nat) (d k : String) (s : ServerState)
    (hk : k ≠ d) :
    (ensure_device_meta now d s).devices_meta k = s.devices_meta k := by
  unfold ensure_device_meta; split
  · rfl
  · simp [hk]

theorem touch_upload_meds (now : Nat) (d : String) (s : ServerState) :
    (update_last_seen_upload now d s).devices_meds = s.devices_meds := by
  simp only [update_last_seen_upload]
  split <;> simp_all [ensure_meds]

theorem touch_upload_pending (now : Nat) (d : String) (s : ServerState) :
    (update_last_seen_upload now d s).devices_commands_pending =
      s.devices_commands_pending := by
  simp only [update_last_seen_upload]
  split <;> simp_all [ensure_pending]

theorem touch_upload_history (now : Nat) (d : String) (s : ServerState) :
    (update_last_seen_upload now d s).devices_commands_history =
      s.devices_commands_history := by
  simp only [update_last_seen_upload]
  split <;> simp_all [ensure_history]

theorem touch_upload_meta_other (now : Nat) (d k : String) (s : ServerState)
    (hk : k ≠ d) :
    (update_last_seen_upload now d s).devices_meta k = s.devices_meta k := by
  simp only [update_last_seen_upload]
  split
  · simp [hk, ensure_meta_other now d k s hk]
  · simp [ensure_meta_other now d k s hk]

theorem touch_changes_meds (now : Nat) (d : String) (s : ServerState) :
    (update_last_seen_changes now d s).devices_meds = s.devices_meds := by
  simp only [update_last_seen_changes]
  split <;> simp_all [ensure_meds]

theorem touch_changes_pending (now : Nat) (d : String) (s : ServerState) :
    (update_last_seen_changes now d s).devices_commands_pending =
      s.devices_commands_pending := by
  simp only [update_last_seen_changes]
  split <;> simp_all [ensure_pending]

theorem touch_changes_history (now : Nat) (d : String) (s : ServerState) :
    (update_last_seen_changes now d s).devices_commands_history =
      s.devices_commands_history := by
  simp only [update_last_seen_changes]
  split <;> simp_all [ensure_history]

theorem touch_changes_meta_other (now : Nat) (d k : String) (s : ServerState)
    (hk : k ≠ d) :
    (update_last_seen_changes now d s).devices_meta k = s.devices_meta k := by
  simp only [update_last_seen_changes]
  split
  · simp [hk, ensure_meta_other now d k s hk]
  · simp [ensure_meta_other now d k s hk]

/-! ### Frame lemmas for `enqueue_command` -/

theorem enqueue_pend_self (now : Nat) (d : String) (c : Cmd)
    (s : ServerState) :
    pend (enqueue_command now d c s) d = pend s d ++ [c] := by
  unfold enqueue_command pend
  simp [ensure_pending]

theorem enqueue_pend_other (now : Nat) (d k : String) (c : Cmd)
    (s : ServerState) (hk : k ≠ d) :
    (enqueue_command now d c s).devices_commands_pending k =
      s.devices_commands_pending k := by
  unfold enqueue_command
  simp [hk, ensure_pending]

theorem enqueue_history (now : Nat) (d : String) (c : Cmd)
    (s : ServerState) :
    (enqueue_command now d c s).devices_commands_history =
      s.devices_commands_history := by
  unfold enqueue_command
  simp [ensure_history]

theorem enqueue_meds (now : Nat) (d : String) (c : Cmd) (s : ServerState) :
    (enqueue_command now d c s).devices_meds = s.devices_meds := by
  unfold enqueue_command
  simp [ensure_meds]

/-- C3: after a successful upload `{deviceId, count, meds}`, a snapshot GET
for that device returns exactly the uploaded count and meds plus the upload
timestamp; the upload wholly overwrites any prior snapshot (the result is
independent of the previous state) and other devices' snapshots are
untouched. -/
theorem c3_upload_overwrites_snapshot (s : ServerState) (d : String)
    (hd : d ≠ "") (c : Int) (ms : List MedEntry) (now : Nat) :
    (upload_medbox now (some ⟨some d, some c, some ms⟩) s).1 =
        .ok d c now
    ∧ get_snapshot d (upload_medbox now (some ⟨some d, some c, some ms⟩) s).2 =
        .ok ⟨now, c, ms⟩
    ∧ ∀ k, k ≠ d →
        (upload_medbox now (some ⟨some d, some c, some ms⟩) s).2.devices_meds k
          = s.devices_meds k := by
  unfold upload_medbox get_snapshot
  simp [hd, touch_upload_meds, ensure_meds]
  intro k hk hk'
  exact absurd hk' hk

theorem c3_witness :
    (upload_medbox 5
        (some ⟨some "X", some 1, some [⟨1, "Aspirin", 2, 8, 0, 1, true⟩]⟩)
        initState).1 = .ok "X" 1 5
    ∧ get_snapshot "X"
        (upload_medbox 5
          (some ⟨some "X", some 1, some [⟨1, "Aspirin", 2, 8, 0, 1, true⟩]⟩)
          initState).2 = .ok ⟨5, 1, [⟨1, "Aspirin", 2, 8, 0, 1, true⟩]⟩
    ∧ (upload_medbox 5
        (some ⟨some "X", some 1, some [⟨1, "Aspirin", 2, 8, 0, 1, true⟩]⟩)
        initState).2.devices_meds "Y" = initState.devices_meds "Y" := by
  refine ⟨(c3_upload_overwrites_snapshot initState "X" (by decide) 1
      [⟨1, "Aspirin", 2, 8, 0, 1, true⟩] 5).1,
    (c3_upload_overwrites_snapshot initState "X" (by decide) 1
      [⟨1, "Aspirin", 2, 8, 0, 1, true⟩] 5).2.1,
    (c3_upload_overwrites_snapshot initState "X" (by decide) 1
      [⟨1, "Aspirin", 2, 8, 0, 1, true⟩] 5).2.2 "Y" (by decide)⟩

/-- C4: an upload request missing `deviceId`, `meds` or `count` is answered
with 400 ("missing fields") and the state — all four stores — is returned
exactly as it was: rejection happens before any mutation. -/
theorem c4_upload_missing_rejected (s : ServerState) (r : UploadReq)
    (now : Nat) (h : r.deviceId = none ∨ r.meds = none ∨ r.count = none) :
    upload_medbox now (some r) s = (.badRequest "missing fields", s) := by
  unfold upload_medbox
  rcases h with h | h | h <;> simp [h]

theorem c4_witness :
    upload_medbox 0 (some ⟨none, some 1, some []⟩) initState =
      (.badRequest "missing fields", initState) :=
  c4_upload_missing_rejected initState ⟨none, some 1, some []⟩ 0 (Or.inl rfl)

/-- C10: the upload missing-field check treats an empty-string `deviceId`
as missing (falsiness test), while `count = 0` and an empty `meds` list are
accepted, because `count` and `meds` are compared against `None` only. -/
theorem c10_upload_falsiness (s : ServerState) (now : Nat) (d : String)
    (hd : d ≠ "") :
    (∀ cnt ms, upload_medbox now (some ⟨some "", cnt, ms⟩) s =
        (.badRequest "missing fields", s))
    ∧ (upload_medbox now (some ⟨some d, some 0, some []⟩) s).1 =
        .ok d 0 now := by
  constructor
  · intro cnt ms
    unfold upload_medbox
    simp
  · unfold upload_medbox
    simp [hd]

theorem c10_witness :
    upload_medbox 7 (some ⟨some "", some 1, some []⟩) initState =
      (.badRequest "missing fields", initState)
    ∧ (upload_medbox 7 (some ⟨some "X", some 0, some []⟩) initState).1 =
        .ok "X" 0 7 :=
  ⟨(c10_upload_falsiness initState 7 "X" (by decide)).1 (some 1) (some []),
   (c10_upload_falsiness initState 7 "X" (by decide)).2⟩

/-! ### The pending queue under a sequence of enqueues -/

theorem enqueueAll_pend_self (d : String) (tcs : List (Nat × Cmd))
    (s : ServerState) :
    pend (enqueueAll d tcs s) d = pend s d ++ tcs.map Prod.snd := by
  induction tcs generalizing s with
  | nil => simp [enqueueAll]
  | cons tc tcs ih =>
      have : enqueueAll d (tc :: tcs) s =
          enqueueAll d tcs (enqueue_command tc.1 d tc.2 s) := rfl
      rw [this, ih, enqueue_pend_self]
      simp

theorem enqueueAll_history (d : String) (tcs : List (Nat × Cmd))
    (s : ServerState) :
    (enqueueAll d tcs s).devices_commands_history =
      s.devices_commands_history := by
  induction tcs generalizing s with
  | nil => rfl
  | cons tc tcs ih =>
      have : enqueueAll d (tc :: tcs) s =
          enqueueAll d tcs (enqueue_command tc.1 d tc.2 s) := rfl
      rw [this, ih, enqueue_history]

/-! ### The drain performed by `get_changes` -/

theorem get_changes_drain (now : Nat) (d : String) (hd : d ≠ "")
    (s : ServerState) :
    (get_changes now (some d) s).1 = .ok (pend s d)
    ∧ pend (get_changes now (some d) s).2 d = []
    ∧ hist (get_changes now (some d) s).2 d =
        hist s d ++ (pend s d).map (stamp now) := by
  unfold get_changes
  simp [hd, pend, hist, stamp, touch_changes_pending, touch_changes_history,
    ensure_pending, ensure_history]

theorem get_changes_frame_other (now : Nat) (d k : String) (hk : k ≠ d)
    (s : ServerState) :
    (get_changes now (some d) s).2.devices_commands_pending k =
        s.devices_commands_pending k
    ∧ (get_changes now (some d) s).2.devices_commands_history k =
        s.devices_commands_history k := by
  unfold get_changes
  by_cases hd : d = ""
  · simp [hd]
  · simp [hd, hk, touch_changes_pending, touch_changes_history,
      ensure_pending, ensure_history]

/-- C1: enqueue any sequence of commands on a device whose pending list is
empty, then poll once: the poll returns exactly the enqueued commands in
FIFO insertion order, the pending list is empty afterwards, and the history
has grown by exactly that many entries, each with status "sent" and a
`sent_at` timestamp no earlier than the poll time. -/
theorem c1_enqueue_then_poll_fifo (s : ServerState) (d : String)
    (hd : d ≠ "") (h0 : pend s d = []) (tcs : List (Nat × Cmd))
    (pollNow : Nat) :
    (get_changes pollNow (some d) (enqueueAll d tcs s)).1 =
        .ok (tcs.map Prod.snd)
    ∧ pend (get_changes pollNow (some d) (enqueueAll d tcs s)).2 d = []
    ∧ hist (get_changes pollNow (some d) (enqueueAll d tcs s)).2 d =
        hist s d ++ (tcs.map Prod.snd).map (stamp pollNow)
    ∧ (hist (get_changes pollNow (some d) (enqueueAll d tcs s)).2 d).length =
        (hist s d).length + tcs.length
    ∧ ∀ e ∈ (tcs.map Prod.snd).map (stamp pollNow),
        e.status = "sent" ∧ pollNow ≤ e.sent_at := by
  have hpend : pend (enqueueAll d tcs s) d = tcs.map Prod.snd := by
    rw [enqueueAll_pend_self, h0]; simp
  have hhist : hist (enqueueAll d tcs s) d = hist s d := by
    unfold hist; rw [enqueueAll_history]
  obtain ⟨h1, h2, h3⟩ := get_changes_drain pollNow d hd (enqueueAll d tcs s)
  refine ⟨by rw [h1, hpend], h2, by rw [h3, hpend, hhist], ?_, ?_⟩
  · rw [h3, hpend, hhist]; simp
  · intro e he
    simp only [List.mem_map] at he
    obtain ⟨c, _, rfl⟩ := he
    exact ⟨rfl, le_refl _⟩

theorem c1_witness :
    (get_changes 3 (some "X")
        (enqueueAll "X" [(1, Cmd.del 4), (2, Cmd.add "N" 1 9 30 2 true)]
          initState)).1 = .ok [Cmd.del 4, Cmd.add "N" 1 9 30 2 true]
    ∧ pend (get_changes 3 (some "X")
        (enqueueAll "X" [(1, Cmd.del 4), (2, Cmd.add "N" 1 9 30 2 true)]
          initState)).2 "X" = []
    ∧ hist (get_changes 3 (some "X")
        (enqueueAll "X" [(1, Cmd.del 4), (2, Cmd.add "N" 1 9 30 2 true)]
          initState)).2 "X" =
        hist initState "X" ++
          [Cmd.del 4, Cmd.add "N" 1 9 30 2 true].map (stamp 3)
    ∧ (hist (get_changes 3 (some "X")
        (enqueueAll "X" [(1, Cmd.del 4), (2, Cmd.add "N" 1 9 30 2 true)]
          initState)).2 "X").length = (hist initState "X").length + 2 := by
  have h := c1_enqueue_then_poll_fifo initState "X" (by decide) rfl
    [(1, Cmd.del 4), (2, Cmd.add "N" 1 9 30 2 true)] 3
  exact ⟨h.1, h.2.1, h.2.2.1, h.2.2.2.1⟩

/-! ### History frame lemmas for the remaining operations -/

theorem upload_history_frame (now : Nat) (data : Option UploadReq)
    (s : ServerState) :
    (upload_medbox now data s).2.devices_commands_history =
      s.devices_commands_history := by
  unfold upload_medbox
  match data with
  | none => rfl
  | some r =>
      by_cases h : r.deviceId.getD "" = "" ∨ r.meds = none ∨ r.count = none
      · simp [h]
      · simp [h, touch_upload_history, ensure_history]

theorem add_command_history_frame (now : Nat) (d : String)
    (data : Option AddReq) (s : ServerState) :
    (add_command now d data s).2.devices_commands_history =
      s.devices_commands_history := by
  unfold add_command
  match data with
  | none => rfl
  | some r =>
      cases hn : r.name <;> cases hq : r.qty <;> cases hh : r.hour <;>
        cases hm : r.minute <;> cases hl : r.led <;>
        simp [hn, hq, hh, hm, hl, enqueue_history]

theorem edit_command_history_frame (now : Nat) (d : String)
    (data : Option EditReq) (s : ServerState) :
    (edit_command now d data s).2.devices_commands_history =
      s.devices_commands_history := by
  unfold edit_command
  match data with
  | none => rfl
  | some r =>
      cases hi : r.id <;> simp [hi, enqueue_history]

theorem delete_command_history_frame (now : Nat) (d : String)
    (data : Option DelReq) (s : ServerState) :
    (delete_command now d data s).2.devices_commands_history =
      s.devices_commands_history := by
  unfold delete_command
  match data with
  | none => rfl
  | some r =>
      cases hi : r.id <;> simp [hi, enqueue_history]

theorem new_device_history_frame (now : Nat) (d f : String)
    (s : ServerState) :
    (new_device now d f s).devices_commands_history =
      s.devices_commands_history := by
  unfold new_device
  by_cases h : d = ""
  · simp [h]
  · simp only [h, if_false]
    split <;> simp [ensure_history]

theorem changes_history_frame_of_ne (now : Nat) (dev : Option String)
    (d : String) (h : dev ≠ some d) :
    (get_changes now dev s).2.devices_commands_history d =
      s.devices_commands_history d := by
  unfold get_changes
  by_cases hge : dev.getD "" = ""
  · simp [hge]
  · have hds : dev = some (dev.getD "") := by
      cases dev with
      | none => simp at hge
      | some x => rfl
    have hne : d ≠ dev.getD "" := by
      intro hEq
      exact h (by rw [hds, hEq])
    simp [hge, hne, touch_changes_history, ensure_history]

theorem delete_pending_history_frame (d' : String) (idx : Nat)
    (s : ServerState) :
    (delete_pending d' idx s).devices_commands_history =
      s.devices_commands_history := by
  unfold delete_pending
  by_cases hlt : idx < ((s.devices_commands_pending d').getD []).length
  · simp [hlt]
  · simp [hlt]

theorem delete_history_hist_sublist (d' : String) (idx : Nat)
    (s : ServerState) (d : String) :
    (hist (delete_history d' idx s) d).Sublist (hist s d) := by
  unfold delete_history hist
  by_cases hlt : idx < ((s.devices_commands_history d').getD []).length
  · by_cases h : d = d'
    · subst h
      simp [hlt]
      exact List.eraseIdx_sublist _ idx
    · simp [hlt, h]
  · simp [hlt]

/-- C2: pending/history exclusivity.  A poll (`GET /medbox/changes`) moves
the device's entire pending list into history (all entries, in order) and
empties pending, so each drained command ends up in exactly one of the two
lists: the combined command collection is preserved (a permutation — no
loss, no duplication).  Every operation other than a poll of that device
never adds to the device's history (its history afterwards is a sublist of
what it was), so polling is the sole pending→history transition. -/
theorem c2_pending_history_exclusive (op : Op) (s : ServerState)
    (d : String) (hd : d ≠ "") :
    (∀ now,
      pend (step (.changes now (some d)) s) d = []
      ∧ hist (step (.changes now (some d)) s) d =
          hist s d ++ (pend s d).map (stamp now)
      ∧ (pend (step (.changes now (some d)) s) d ++
           histCmds (step (.changes now (some d)) s) d).Perm
          (pend s d ++ histCmds s d))
    ∧ ((∀ now, op ≠ .changes now (some d)) →
        (hist (step op s) d).Sublist (hist s d)) := by
  constructor
  · intro now
    obtain ⟨_, h2, h3⟩ := get_changes_drain now d hd s
    have hstep : step (.changes now (some d)) s = (get_changes now (some d) s).2 := rfl
    refine ⟨by rw [hstep, h2], by rw [hstep, h3], ?_⟩
    rw [hstep, h2]
    simp only [List.nil_append, histCmds, h3, List.map_append]
    have hmap : ((pend s d).map (stamp now)).map HistEntry.cmd = pend s d := by
      simp [stamp, Function.comp_def]
    rw [hmap]
    exact List.perm_append_comm
  · intro hne
    cases op with
    | upload now data =>
        show (hist (upload_medbox now data s).2 d).Sublist (hist s d)
        unfold hist; rw [upload_history_frame]
    | changes now dev =>
        have hdev : dev ≠ some d := fun h => hne now (by rw [h])
        show (hist (get_changes now dev s).2 d).Sublist (hist s d)
        unfold hist; rw [changes_history_frame_of_ne now dev d hdev]
    | addCmd now d' data =>
        show (hist (add_command now d' data s).2 d).Sublist (hist s d)
        unfold hist; rw [add_command_history_frame]
    | editCmd now d' data =>
        show (hist (edit_command now d' data s).2 d).Sublist (hist s d)
        unfold hist; rw [edit_command_history_frame]
    | delCmd now d' data =>
        show (hist (delete_command now d' data s).2 d).Sublist (hist s d)
        unfold hist; rw [delete_command_history_frame]
    | snapshotGet d' => exact List.Sublist.refl _
    | pendingGet d' => exact List.Sublist.refl _
    | indexGet => exact List.Sublist.refl _
    | newDevice now d' f =>
        show (hist (new_device now d' f s) d).Sublist (hist s d)
        unfold hist; rw [new_device_history_frame]
    | deviceDetail now d' =>
        show (hist (ensure_device_meta now d' s) d).Sublist (hist s d)
        unfold hist; rw [ensure_history]
    | deleteDevice d' =>
        show (hist (delete_device d' s) d).Sublist (hist s d)
        unfold hist delete_device
        by_cases h : d = d'
        · simp [h]
        · simp [h]
    | deletePending d' idx =>
        show (hist (delete_pending d' idx s) d).Sublist (hist s d)
        unfold hist
        rw [delete_pending_history_frame]
    | deleteHistory d' idx =>
        exact delete_history_hist_sublist d' idx s d

theorem c2_witness :
    (pend (step (Op.changes 9 (some "X"))
        (enqueue_command 1 "X" (Cmd.del 7) initState)) "X" = []
    ∧ hist (step (Op.changes 9 (some "X"))
        (enqueue_command 1 "X" (Cmd.del 7) initState)) "X" =
        hist (enqueue_command 1 "X" (Cmd.del 7) initState) "X" ++
          (pend (enqueue_command 1 "X" (Cmd.del 7) initState) "X").map (stamp 9)
    ∧ (pend (step (Op.changes 9 (some "X"))
          (enqueue_command 1 "X" (Cmd.del 7) initState)) "X" ++
        histCmds (step (Op.changes 9 (some "X"))
          (enqueue_command 1 "X" (Cmd.del 7) initState)) "X").Perm
        (pend (enqueue_command 1 "X" (Cmd.del 7) initState) "X" ++
          histCmds (enqueue_command 1 "X" (Cmd.del 7) initState) "X"))
    ∧ (hist (step (Op.deleteHistory "X" 0)
        (enqueue_command 1 "X" (Cmd.del 7) initState)) "X").Sublist
        (hist (enqueue_command 1 "X" (Cmd.del 7) initState) "X") :=
  ⟨(c2_pending_history_exclusive (Op.deleteHistory "X" 0)
      (enqueue_command 1 "X" (Cmd.del 7) initState) "X" (by decide)).1 9,
   (c2_pending_history_exclusive (Op.deleteHistory "X" 0)
      (enqueue_command 1 "X" (Cmd.del 7) initState) "X" (by decide)).2
      (fun _ h => Op.noConfusion h)⟩

/-- C5: deleting a device removes its entry from all four stores in the one
critical section modelled by the single `delete_device` transition, leaves
every other device untouched, and a subsequent snapshot GET returns 404. -/
theorem c5_delete_device_removes_all (s : ServerState) (d : String) :
    (delete_device d s).devices_meta d = none
    ∧ (delete_device d s).devices_meds d = none
    ∧ (delete_device d s).devices_commands_pending d = none
    ∧ (delete_device d s).devices_commands_history d = none
    ∧ (∀ k, k ≠ d →
        (delete_device d s).devices_meta k = s.devices_meta k
        ∧ (delete_device d s).devices_meds k = s.devices_meds k
        ∧ (delete_device d s).devices_commands_pending k =
            s.devices_commands_pending k
        ∧ (delete_device d s).devices_commands_history k =
            s.devices_commands_history k)
    ∧ get_snapshot d (delete_device d s) = .notFound := by
  unfold delete_device get_snapshot
  refine ⟨by simp, by simp, by simp, by simp, ?_, by simp⟩
  intro k hk
  simp [hk]

theorem c5_witness :
    (delete_device "X"
      (upload_medbox 5 (some ⟨some "X", some 1, some []⟩)
        initState).2).devices_meta "X" = none
    ∧ (delete_device "X"
        (upload_medbox 5 (some ⟨some "X", some 1, some []⟩)
          initState).2).devices_meds "X" = none
    ∧ (delete_device "X"
        (upload_medbox 5 (some ⟨some "X", some 1, some []⟩)
          initState).2).devices_commands_pending "X" = none
    ∧ (delete_device "X"
        (upload_medbox 5 (some ⟨some "X", some 1, some []⟩)
          initState).2).devices_commands_history "X" = none
    ∧ get_snapshot "X"
        (delete_device "X"
          (upload_medbox 5 (some ⟨some "X", some 1, some []⟩)
            initState).2) = .notFound := by
  have h := c5_delete_device_removes_all
    (upload_medbox 5 (some ⟨some "X", some 1, some []⟩) initState).2 "X"
  exact ⟨h.1, h.2.1, h.2.2.1, h.2.2.2.1, h.2.2.2.2.2⟩

/-- C6: deleting the pending item at index `i` removes exactly that element
and keeps all other pending entries in their original relative order
(`take i ++ drop (i+1)`), touching nothing else; an out-of-range index
(including a device with no pending list) changes nothing at all. -/
theorem c6_delete_pending_index (s : ServerState) (d : String) (idx : Nat) :
    (idx < (pend s d).length →
      pend (delete_pending d idx s) d =
          (pend s d).take idx ++ (pend s d).drop (idx + 1)
      ∧ (∀ k, k ≠ d →
          (delete_pending d idx s).devices_commands_pending k =
            s.devices_commands_pending k)
      ∧ (delete_pending d idx s).devices_meds = s.devices_meds
      ∧ (delete_pending d idx s).devices_commands_history =
          s.devices_commands_history
      ∧ (delete_pending d idx s).devices_meta = s.devices_meta)
    ∧ ((pend s d).length ≤ idx → delete_pending d idx s = s) := by
  constructor
  · intro hlt
    have hlt' : idx < ((s.devices_commands_pending d).getD []).length := hlt
    refine ⟨?_, ?_, ?_, ?_, ?_⟩
    · unfold delete_pending pend
      simp [hlt', List.eraseIdx_eq_take_drop_succ]
    · intro k hk
      unfold delete_pending
      simp [hlt', hk]
    · unfold delete_pending
      simp [hlt']
    · unfold delete_pending
      simp [hlt']
    · unfold delete_pending
      simp [hlt']
  · intro hge
    have hnlt : ¬ idx < ((s.devices_commands_pending d).getD []).length := by
      show ¬ idx < (pend s d).length
      omega
    unfold delete_pending
    simp [hnlt]

theorem c6_witness :
    pend (delete_pending "X" 1
        (enqueueAll "X" [(0, Cmd.del 1), (0, Cmd.del 2), (0, Cmd.del 3)]
          initState)) "X" = [Cmd.del 1, Cmd.del 3]
    ∧ delete_pending "X" 5
        (enqueueAll "X" [(0, Cmd.del 1), (0, Cmd.del 2), (0, Cmd.del 3)]
          initState) =
        enqueueAll "X" [(0, Cmd.del 1), (0, Cmd.del 2), (0, Cmd.del 3)]
          initState := by
  have hp : pend (enqueueAll "X" [(0, Cmd.del 1), (0, Cmd.del 2), (0, Cmd.del 3)]
      initState) "X" = [Cmd.del 1, Cmd.del 2, Cmd.del 3] := by
    rw [enqueueAll_pend_self]; rfl
  have h := c6_delete_pending_index
    (enqueueAll "X" [(0, Cmd.del 1), (0, Cmd.del 2), (0, Cmd.del 3)] initState)
    "X" 1
  have h5 := c6_delete_pending_index
    (enqueueAll "X" [(0, Cmd.del 1), (0, Cmd.del 2), (0, Cmd.del 3)] initState)
    "X" 5
  constructor
  · have := (h.1 (by rw [hp]; decide)).1
    rw [hp] at this
    exact this
  · exact h5.2 (by rw [hp]; decide)

/-! ### Behaviour of the metadata upserts -/

theorem ensure_of_some (now : Nat) (d : String) (s : ServerState)
    (m : DeviceMeta) (h : s.devices_meta d = some m) :
    ensure_device_meta now d s = s := by
  unfold ensure_device_meta
  rw [h]

theorem ensure_of_none (now : Nat) (d : String) (s : ServerState)
    (h : s.devices_meta d = none) :
    (ensure_device_meta now d s).devices_meta d =
      some ⟨d, d, now, none, none⟩ := by
  unfold ensure_device_meta
  rw [h]
  simp

theorem ensure_meta_isSome (now : Nat) (d : String) (s : ServerState) :
    ∃ m, (ensure_device_meta now d s).devices_meta d = some m := by
  cases h : s.devices_meta d with
  | some m => exact ⟨m, by rw [ensure_of_some now d s m h, h]⟩
  | none => exact ⟨_, ensure_of_none now d s h⟩

/-- C7: `ensure_device_meta` creates a fresh record (created_at = now) when
the device is absent and is the identity when it is present; calling it
twice is the same as calling it once.  `update_last_seen_upload` /
`update_last_seen_changes` first ensure the record exists and then change
only their respective last-seen field.  None of the three touches the
snapshot, pending or history stores. -/
theorem c7_meta_upserts (s : ServerState) (d : String) (n1 n2 : Nat) :
    (s.devices_meta d = none →
      (ensure_device_meta n1 d s).devices_meta d =
        some ⟨d, d, n1, none, none⟩)
    ∧ (∀ m, s.devices_meta d = some m → ensure_device_meta n1 d s = s)
    ∧ ensure_device_meta n2 d (ensure_device_meta n1 d s) =
        ensure_device_meta n1 d s
    ∧ (∀ m, (ensure_device_meta n1 d s).devices_meta d = some m →
        (update_last_seen_upload n1 d s).devices_meta d =
          some { m with last_seen_upload := some n1 })
    ∧ (∀ m, (ensure_device_meta n1 d s).devices_meta d = some m →
        (update_last_seen_changes n1 d s).devices_meta d =
          some { m with last_seen_changes := some n1 })
    ∧ (update_last_seen_upload n1 d s).devices_meds = s.devices_meds
    ∧ (update_last_seen_upload n1 d s).devices_commands_pending =
        s.devices_commands_pending
    ∧ (update_last_seen_upload n1 d s).devices_commands_history =
        s.devices_commands_history
    ∧ (update_last_seen_changes n1 d s).devices_meds = s.devices_meds
    ∧ (update_last_seen_changes n1 d s).devices_commands_pending =
        s.devices_commands_pending
    ∧ (update_last_seen_changes n1 d s).devices_commands_history =
        s.devices_commands_history := by
  refine ⟨fun h => ensure_of_none n1 d s h,
    fun m h => ensure_of_some n1 d s m h, ?_, ?_, ?_,
    touch_upload_meds n1 d s, touch_upload_pending n1 d s,
    touch_upload_history n1 d s, touch_changes_meds n1 d s,
    touch_changes_pending n1 d s, touch_changes_history n1 d s⟩
  · obtain ⟨m, hm⟩ := ensure_meta_isSome n1 d s
    exact ensure_of_some n2 d _ m hm
  · intro m h
    simp only [update_last_seen_upload]
    rw [h]
    simp
  · intro m h
    simp only [update_last_seen_changes]
    rw [h]
    simp

theorem c7_witness :
    (ensure_device_meta 3 "A" initState).devices_meta "A" =
      some ⟨"A", "A", 3, none, none⟩
    ∧ ensure_device_meta 5 "A" (ensure_device_meta 3 "A" initState) =
        ensure_device_meta 3 "A" initState
    ∧ (update_last_seen_upload 3 "A" initState).devices_meta "A" =
        some ⟨"A", "A", 3, some 3, none⟩
    ∧ (update_last_seen_changes 3 "A" initState).devices_meta "A" =
        some ⟨"A", "A", 3, none, some 3⟩
    ∧ (update_last_seen_upload 3 "A" initState).devices_commands_pending =
        initState.devices_commands_pending := by
  refine ⟨(c7_meta_upserts initState "A" 3 5).1 rfl,
    (c7_meta_upserts initState "A" 3 5).2.2.1,
    (c7_meta_upserts initState "A" 3 5).2.2.2.1 ⟨"A", "A", 3, none, none⟩
      (by decide),
    (c7_meta_upserts initState "A" 3 5).2.2.2.2.1 ⟨"A", "A", 3, none, none⟩
      (by decide),
    (c7_meta_upserts initState "A" 3 5).2.2.2.2.2.2.1⟩

/-- C8 counterexample: the claim "every add command accepted via
`POST /<id>/command/add` has hour in 0–23 and minute in 0–59" is false:
`add_command` only checks that the required fields are present, so a
request with hour 99 and minute 61 is accepted (HTTP 200, queued). -/
theorem c8_counterexample :
    ¬ (∀ (now : Nat) (d : String) (data : AddReq) (s : ServerState)
        (name : String) (qty hour minute led : Int) (enabled : Bool),
        (add_command now d (some data) s).1 =
          CmdResp.queued d (Cmd.add name qty hour minute led enabled) →
        0 ≤ hour ∧ hour ≤ 23 ∧ 0 ≤ minute ∧ minute ≤ 59) := by
  intro h
  have hx := h 0 "A" ⟨some "X", some 1, some 99, some 61, some 1, none⟩
    initState "X" 1 99 61 1 true rfl
  exact absurd hx.2.1 (by decide)

/-- C8 amended: an add request with well-formed JSON is accepted iff all of
name, qty, hour, minute, led are present; the queued command echoes exactly
those values (`enabled` defaulting to true) with no range check on hour or
minute, and it is appended to the device's pending queue. -/
theorem c8_add_command_amended (now : Nat) (d : String) (r : AddReq)
    (s : ServerState) :
    (∀ name qty hour minute led,
      r.name = some name → r.qty = some qty → r.hour = some hour →
      r.minute = some minute → r.led = some led →
      add_command now d (some r) s =
        (.queued d (Cmd.add name qty hour minute led (r.enabled.getD true)),
         enqueue_command now d
           (Cmd.add name qty hour minute led (r.enabled.getD true)) s))
    ∧ ((r.name = none ∨ r.qty = none ∨ r.hour = none ∨ r.minute = none ∨
        r.led = none) →
        add_command now d (some r) s = (.badRequest "missing fields", s)) := by
  constructor
  · intro name qty hour minute led h1 h2 h3 h4 h5
    simp only [add_command]
    rw [h1, h2, h3, h4, h5]
  · intro h
    simp only [add_command]
    cases hn : r.name <;> cases hq : r.qty <;> cases hh : r.hour <;>
      cases hm : r.minute <;> cases hl : r.led <;> simp_all

theorem c8_witness :
    add_command 2 "A"
        (some ⟨some "X", some 1, some 9, some 30, some 2, some false⟩)
        initState =
      (.queued "A" (Cmd.add "X" 1 9 30 2 false),
       enqueue_command 2 "A" (Cmd.add "X" 1 9 30 2 false) initState)
    ∧ add_command 2 "A"
        (some ⟨some "X", some 1, some 9, some 30, none, some false⟩)
        initState = (.badRequest "missing fields", initState) :=
  ⟨(c8_add_command_amended 2 "A"
      ⟨some "X", some 1, some 9, some 30, some 2, some false⟩ initState).1
      "X" 1 9 30 2 rfl rfl rfl rfl rfl,
   (c8_add_command_amended 2 "A"
      ⟨some "X", some 1, some 9, some 30, none, some false⟩ initState).2
      (Or.inr (Or.inr (Or.inr (Or.inr rfl))))⟩

/-! ### C9: interleaving one enqueue with polls

The global lock serializes the concurrent requests, so any interleaving of
one `enqueue(D, cmd)` with polls of D is a sequence of atomic events. -/

/-- One event of the interleaving: the enqueue of the tracked command, or a
poll of the device, each at its own clock value. -/
inductive Ev where
  | enq (now : Nat)
  | poll (now : Nat)
deriving DecidableEq, Repr

/-- State transition of one event. -/
def evStep (d : String) (c : Cmd) : Ev → ServerState → ServerState
  | .enq now, s => enqueue_command now d c s
  | .poll now, s => (get_changes now (some d) s).2

/-- The command list a poll returns (an enqueue returns none). -/
def evOut (d : String) (_c : Cmd) : Ev → ServerState → List Cmd
  | .enq _, _ => []
  | .poll now, s =>
      match (get_changes now (some d) s).1 with
      | .ok cmds => cmds
      | .badRequest _ => []

/-- Run a sequence of events. -/
def runEvs (d : String) (c : Cmd) (evs : List Ev) (s : ServerState) :
    ServerState :=
  evs.foldl (fun st e => evStep d c e st) s

/-- Total number of occurrences of the tracked command in the outputs of
all polls of the sequence. -/
def deliveredCount (d : String) (c : Cmd) : List Ev → ServerState → Nat
  | [], _ => 0
  | e :: es, s =>
      (evOut d c e s).count c + deliveredCount d c es (evStep d c e s)

/-- Whether an event is the enqueue. -/
def isEnq : Ev → Bool
  | .enq _ => true
  | .poll _ => false

theorem delivered_conservation (d : String) (hd : d ≠ "") (c : Cmd)
    (evs : List Ev) (s : ServerState) :
    deliveredCount d c evs s + (pend (runEvs d c evs s) d).count c =
      (pend s d).count c + evs.countP isEnq := by
  induction evs generalizing s with
  | nil => simp [deliveredCount, runEvs]
  | cons e es ih =>
      cases e with
      | enq now =>
          have hdel : deliveredCount d c (Ev.enq now :: es) s =
              deliveredCount d c es (enqueue_command now d c s) := by
            simp [deliveredCount, evOut, evStep]
          have hrun : runEvs d c (Ev.enq now :: es) s =
              runEvs d c es (enqueue_command now d c s) := rfl
          rw [hdel, hrun, ih, enqueue_pend_self]
          simp [List.countP_cons, isEnq, List.count_append]
          omega
      | poll now =>
          have hout : evOut d c (Ev.poll now) s = pend s d := by
            show (match (get_changes now (some d) s).1 with
              | ChangesResp.ok cmds => cmds
              | ChangesResp.badRequest _ => []) = pend s d
            rw [(get_changes_drain now d hd s).1]
          have hdel : deliveredCount d c (Ev.poll now :: es) s =
              (pend s d).count c +
                deliveredCount d c es ((get_changes now (some d) s).2) := by
            simp [deliveredCount, evStep, hout]
          have hrun : runEvs d c (Ev.poll now :: es) s =
              runEvs d c es ((get_changes now (some d) s).2) := rfl
          have hpend0 : pend ((get_changes now (some d) s).2) d = [] :=
            (get_changes_drain now d hd s).2.1
          rw [hdel, hrun]
          have h2 := ih ((get_changes now (some d) s).2)
          rw [hpend0] at h2
          simp only [List.count_nil, Nat.zero_add] at h2
          simp [List.countP_cons, isEnq]
          omega

theorem pend_after_polls (d : String) (hd : d ≠ "") (c : Cmd) :
    ∀ (evs : List Ev) (s : ServerState),
      (∀ e ∈ evs, ∃ n, e = Ev.poll n) → evs ≠ [] →
      pend (runEvs d c evs s) d = [] := by
  intro evs
  induction evs with
  | nil => intro s _ hne; cases hne rfl
  | cons e es ih =>
      intro s hall hne
      obtain ⟨n, rfl⟩ := hall e (by simp)
      rcases eq_or_ne es [] with h | h
      · subst h
        exact (get_changes_drain n d hd s).2.1
      · have hrun : runEvs d c (Ev.poll n :: es) s =
            runEvs d c es (evStep d c (Ev.poll n) s) := rfl
        rw [hrun]
        exact ih _ (fun e he => hall e (by simp [he])) h

/-- C9: in any serialized interleaving of one `enqueue(D, cmd)` with polls
of D (the lock makes every interleaving such a sequence), starting from a
state whose pending queue holds no copy of `cmd`, and with at least one
poll after the enqueue, the total number of occurrences of `cmd` across all
poll outputs is exactly one: the command is delivered by exactly one poll —
never lost, never duplicated. -/
theorem c9_enqueue_never_lost (d : String) (hd : d ≠ "") (c : Cmd)
    (s : ServerState) (h0 : (pend s d).count c = 0)
    (pre post : List Ev) (tEnq : Nat)
    (hpre : ∀ e ∈ pre, ∃ n, e = Ev.poll n)
    (hpost : ∀ e ∈ post, ∃ n, e = Ev.poll n)
    (hne : post ≠ []) :
    deliveredCount d c (pre ++ Ev.enq tEnq :: post) s = 1 := by
  have hcons := delivered_conservation d hd c (pre ++ Ev.enq tEnq :: post) s
  have hfinal : pend (runEvs d c (pre ++ Ev.enq tEnq :: post) s) d = [] := by
    have hsplit : runEvs d c (pre ++ Ev.enq tEnq :: post) s =
        runEvs d c post (evStep d c (Ev.enq tEnq) (runEvs d c pre s)) := by
      unfold runEvs
      rw [List.foldl_append]
      rfl
    rw [hsplit]
    exact pend_after_polls d hd c post _ hpost hne
  have hcount : (pre ++ Ev.enq tEnq :: post).countP isEnq = 1 := by
    rw [List.countP_append, List.countP_cons]
    have h1 : pre.countP isEnq = 0 := List.countP_eq_zero.mpr (fun e he => by
      obtain ⟨n, rfl⟩ := hpre e he
      simp [isEnq])
    have h2 : post.countP isEnq = 0 := List.countP_eq_zero.mpr (fun e he => by
      obtain ⟨n, rfl⟩ := hpost e he
      simp [isEnq])
    simp [h1, h2, isEnq]
  rw [hfinal] at hcons
  simp only [List.count_nil, Nat.add_zero] at hcons
  omega

theorem c9_witness :
    deliveredCount "X" (Cmd.del 9)
      ([Ev.poll 1] ++ Ev.enq 5 :: [Ev.poll 2, Ev.poll 3]) initState = 1 :=
  c9_enqueue_never_lost "X" (by decide) (Cmd.del 9) initState rfl
    [Ev.poll 1] [Ev.poll 2, Ev.poll 3] 5
    (by
      intro e he
      simp only [List.mem_singleton] at he
      exact ⟨1, he⟩)
    (by
      intro e he
      simp only [List.mem_cons, List.mem_singleton] at he
      rcases he with h | h | h
      · exact ⟨2, h⟩
      · exact ⟨3, h⟩
      · cases h)
    (by simp)
